import Mathlib

/-!
Shallow embedding of the NiftyMIC scattered data approximation (SDA)
reconstruction engine (niftymic/reconstruction/scattered_data_approximation.py)
and the outlier rejector (niftymic/utilities/outlier_rejector.py).

Voxel grids are modelled as functions from an abstract voxel index type to the
rationals (exact arithmetic in place of IEEE doubles).  Nearest-neighbour
resampling of a slice into the target grid is modelled by the map sending each
destination voxel either to the source pixel it samples (inside the slice
footprint) or to none (outside, where the resampler writes the fill value).
-/

section SDA

variable {ι π : Type}

/-- A slice after source selection, as seen by the accumulation loops:
`src` is the selected source pixel array (image, masked image, or mask) and
`map` is the nearest-neighbour correspondence fixed by the rigid pose of the
slice and the target grid geometry (`none` outside the slice footprint). -/
structure RSlice (ι π : Type) where
  src : π → ℚ
  map : ι → Option π

/-- Nearest-neighbour resampling (sitk.Resample with sitkNearestNeighbor):
each destination voxel reads its nearest source pixel, or the fill value
outside the source footprint. -/
def resampleNN (src : π → ℚ) (map : ι → Option π) (fill : ℚ) : ι → ℚ :=
  fun x =>
    match map x with
    | some p => src p
    | none => fill

/-- Resampled array used by the YVV accumulation loop: the source pixel values
are offset by +1 before resampling with fill value 0
(scattered_data_approximation.py lines 347-357). -/
def ndaYvv (s : RSlice ι π) : ι → ℚ :=
  resampleNN (fun p => s.src p + 1) s.map 0

/-- Resampled array used by the Deriche accumulation loop: the raw source
pixel values are resampled with fill value 0, with no offset
(scattered_data_approximation.py lines 490-499). -/
def ndaDeriche (s : RSlice ι π) : ι → ℚ :=
  resampleNN s.src s.map 0

/-- One slice of the YVV accumulation loop (lines 362-371): on voxels where
the resampled offset value is strictly positive, the numerator gains the
resampled value minus 1 and the denominator gains 1. -/
def yvvSliceUpdate (s : RSlice ι π) (ND : (ι → ℚ) × (ι → ℚ)) :
    (ι → ℚ) × (ι → ℚ) :=
  (fun x => if 0 < ndaYvv s x then ND.1 x + (ndaYvv s x - 1) else ND.1 x,
   fun x => if 0 < ndaYvv s x then ND.2 x + 1 else ND.2 x)

/-- One slice of the Deriche accumulation loop (lines 499-507): on voxels
where the raw resampled value is strictly positive, the numerator gains the
resampled value and the denominator gains 1. -/
def dericheSliceUpdate (s : RSlice ι π) (ND : (ι → ℚ) × (ι → ℚ)) :
    (ι → ℚ) × (ι → ℚ) :=
  (fun x => if 0 < ndaDeriche s x then ND.1 x + ndaDeriche s x else ND.1 x,
   fun x => if 0 < ndaDeriche s x then ND.2 x + 1 else ND.2 x)

/-- The full YVV accumulation over all slices of all stacks, in processing
order, from zero-initialised numerator and denominator arrays
(lines 326-371). -/
def yvvAccumulate (l : List (RSlice ι π)) : (ι → ℚ) × (ι → ℚ) :=
  l.foldl (fun ND s => yvvSliceUpdate s ND) (fun _ => 0, fun _ => 0)

/-- The full Deriche accumulation over all slices of all stacks, in processing
order, from zero-initialised numerator and denominator arrays
(lines 469-507). -/
def dericheAccumulate (l : List (RSlice ι π)) : (ι → ℚ) × (ι → ℚ) :=
  l.foldl (fun ND s => dericheSliceUpdate s ND) (fun _ => 0, fun _ => 0)

/-- The zero guard applied to the denominator before smoothing
(helper_D_nda[helper_D_nda == 0] = 1, lines 383, 513, 633). -/
def zeroGuard (D : ι → ℚ) : ι → ℚ :=
  fun x => if D x = 0 then 1 else D x

/-- The denominator accumulation of the uncertainty computation
(_compute_uncertainties, lines 593-630): same offset-and-resample slice
processing as the YVV loop, but only the denominator is accumulated. -/
def uncertaintyAccumulateD (l : List (RSlice ι π)) : ι → ℚ :=
  l.foldl (fun D s => fun x => if 0 < ndaYvv s x then D x + 1 else D x)
    (fun _ => 0)

/-- Per-slice numerator contribution of the YVV loop, as a standalone value. -/
def yvvContribN (s : RSlice ι π) (x : ι) : ℚ :=
  if 0 < ndaYvv s x then ndaYvv s x - 1 else 0

/-- Per-slice numerator contribution of the Deriche loop. -/
def dericheContribN (s : RSlice ι π) (x : ι) : ℚ :=
  if 0 < ndaDeriche s x then ndaDeriche s x else 0

/-- Per-slice denominator contribution of the YVV loop (an indicator). -/
def yvvContribD (s : RSlice ι π) (x : ι) : ℚ :=
  if 0 < ndaYvv s x then 1 else 0

/-- Per-slice denominator contribution of the Deriche loop (an indicator). -/
def dericheContribD (s : RSlice ι π) (x : ι) : ℚ :=
  if 0 < ndaDeriche s x then 1 else 0

/-- Generic pointwise-additive accumulation of per-slice contributions. -/
def pairFold (f g : RSlice ι π → ι → ℚ) (l : List (RSlice ι π)) :
    (ι → ℚ) × (ι → ℚ) :=
  l.foldl (fun ND s => (fun x => ND.1 x + f s x, fun x => ND.2 x + g s x))
    (fun _ => 0, fun _ => 0)

lemma pairFold_foldl_eq (f g : RSlice ι π → ι → ℚ) :
    ∀ (l : List (RSlice ι π)) (ND : (ι → ℚ) × (ι → ℚ)),
      l.foldl
        (fun (ND : (ι → ℚ) × (ι → ℚ)) s =>
          (fun x => ND.1 x + f s x, fun x => ND.2 x + g s x))
        ND =
      (fun x => ND.1 x + (l.map (fun s => f s x)).sum,
       fun x => ND.2 x + (l.map (fun s => g s x)).sum) := by
  intro l
  induction l with
  | nil => intro ND; simp
  | cons a l ih =>
      intro ND
      simp only [List.foldl_cons, ih, List.map_cons, List.sum_cons]
      refine Prod.ext ?_ ?_ <;> funext x <;> dsimp only <;> ring

lemma pairFold_eq_sum (f g : RSlice ι π → ι → ℚ) (l : List (RSlice ι π)) :
    pairFold f g l =
      (fun x => (l.map (fun s => f s x)).sum,
       fun x => (l.map (fun s => g s x)).sum) := by
  simpa using pairFold_foldl_eq f g l (fun _ => 0, fun _ => 0)

lemma yvvSliceUpdate_eq (s : RSlice ι π) (ND : (ι → ℚ) × (ι → ℚ)) :
    yvvSliceUpdate s ND =
      (fun x => ND.1 x + yvvContribN s x, fun x => ND.2 x + yvvContribD s x) := by
  unfold yvvSliceUpdate yvvContribN yvvContribD
  refine Prod.ext ?_ ?_ <;> funext x <;> dsimp only <;> split <;> simp

lemma dericheSliceUpdate_eq (s : RSlice ι π) (ND : (ι → ℚ) × (ι → ℚ)) :
    dericheSliceUpdate s ND =
      (fun x => ND.1 x + dericheContribN s x,
       fun x => ND.2 x + dericheContribD s x) := by
  unfold dericheSliceUpdate dericheContribN dericheContribD
  refine Prod.ext ?_ ?_ <;> funext x <;> dsimp only <;> split <;> simp

lemma yvvAccumulate_eq_pairFold (l : List (RSlice ι π)) :
    yvvAccumulate l = pairFold yvvContribN yvvContribD l := by
  unfold yvvAccumulate pairFold
  congr 1
  funext ND s
  exact yvvSliceUpdate_eq s ND

lemma dericheAccumulate_eq_pairFold (l : List (RSlice ι π)) :
    dericheAccumulate l = pairFold dericheContribN dericheContribD l := by
  unfold dericheAccumulate pairFold
  congr 1
  funext ND s
  exact dericheSliceUpdate_eq s ND

lemma sum_indicator_eq_countP (p : RSlice ι π → ι → Prop)
    [∀ s x, Decidable (p s x)] (x : ι) :
    ∀ l : List (RSlice ι π),
      (l.map (fun s => if p s x then (1 : ℚ) else 0)).sum =
        l.countP (fun s => decide (p s x)) := by
  intro l
  induction l with
  | nil => simp
  | cons a l ih =>
      simp only [List.map_cons, List.sum_cons, ih, List.countP_cons]
      by_cases h : p a x
      · simp [h, add_comm]
      · simp [h]

lemma uncertaintyAccumulateD_foldl_eq :
    ∀ (l : List (RSlice ι π)) (D : ι → ℚ),
      l.foldl (fun D s => fun x => if 0 < ndaYvv s x then D x + 1 else D x) D =
      fun x => D x + (l.map (fun s => yvvContribD s x)).sum := by
  intro l
  induction l with
  | nil => intro D; simp
  | cons a l ih =>
      intro D
      simp only [List.foldl_cons, ih, List.map_cons, List.sum_cons]
      funext x
      unfold yvvContribD
      split <;> ring

lemma uncertaintyAccumulateD_eq (l : List (RSlice ι π)) :
    uncertaintyAccumulateD l = fun x => (l.map (fun s => yvvContribD s x)).sum := by
  simpa using uncertaintyAccumulateD_foldl_eq l (fun _ => 0)

/-- Per-axis sigmas handed to the smoothing filter by the YVV variant:
gaussian.SetSigmaArray(self._sigma_array) (line 411) passes all three
per-axis standard deviations. -/
def yvvSmoothingSigmas (sigma_array : Fin 3 → ℚ) : Fin 3 → ℚ :=
  sigma_array

/-- Per-axis sigmas effectively applied by the Deriche variant:
gaussian.SetSigma(self._sigma_array[1]) (line 524) hands SimpleITK the single
scalar sigma_array[1], which the filter applies along every axis. -/
def dericheSmoothingSigmas (sigma_array : Fin 3 → ℚ) : Fin 3 → ℚ :=
  fun _ => sigma_array 1

/-- np.clip(x, lo, hi). -/
def npClip (x lo hi : ℚ) : ℚ :=
  min (max x lo) hi

/-- ndarray.astype(np.uint8) for a float value: truncate toward zero, wrap
modulo 256.  Every value cast in _compute_uncertainties is nonnegative, where
truncation toward zero coincides with the floor. -/
def npUInt8 (x : ℚ) : ℕ :=
  (⌊x⌋).toNat % 256

/-- The normalized uncertainty value at one voxel
(_compute_uncertainties, lines 681-683):
(N_stacks - np.clip(nda_D, 0, N_stacks) + 1) * mask, cast to np.uint8.
`d` is the smoothed denominator value and `m` the binary mask value there. -/
def normalizedUncertainty (nStacks : ℕ) (d m : ℚ) : ℕ :=
  npUInt8 (((nStacks : ℚ) - npClip d 0 (nStacks : ℚ) + 1) * m)

/-- A slice as the accumulation loops receive it from a Stack: an intensity
array and a binary mask array over the same pixels. -/
structure SliceData (π : Type) where
  image : π → ℚ
  mask : π → ℚ

/-- The _get_slice dispatch keyed on (use_masks, sda_mask)
(lines 67-73 and 305-317): plain image, mask-weighted image, or mask. -/
def getSliceSource (use_masks sda_mask : Bool) (s : SliceData π) : π → ℚ :=
  match use_masks, sda_mask with
  | false, false => s.image
  | true, false => fun p => s.image p * s.mask p
  | false, true => s.mask
  | true, true => s.mask

/-- The HR target volume as a Stack object: an intensity field (sitk) and a
mask field (sitk_mask). -/
structure StackVol (ι : Type) where
  sitk : ι → ℚ
  sitk_mask : ι → ℚ

/-- The tail of both reconstruction variants (lines 434-461 and 561-574):
with sda_mask the mask estimator output replaces the mask field, otherwise
the ratio volume replaces the intensity field. -/
def finalizeVolume (sda_mask : Bool) (maskEstimate : (ι → ℚ) → (ι → ℚ))
    (update : ι → ℚ) (hr : StackVol ι) : StackVol ι :=
  if sda_mask then
    { hr with sitk_mask := maskEstimate update }
  else
    { hr with sitk := update }

/-- Turn a raw slice plus its nearest-neighbour correspondence into the
accumulation view, applying the configured source selection. -/
def toRSlice (use_masks sda_mask : Bool) (s : SliceData π × (ι → Option π)) :
    RSlice ι π :=
  { src := getSliceSource use_masks sda_mask s.1, map := s.2 }

/-- The whole YVV reconstruction pass (lines 323-461): accumulate, zero-guard
the denominator, smooth both channels with the same filter, divide, and
finalize into the HR volume.  The recursive Gaussian filter is the external
ITK collaborator and enters as the function `smooth`; the binary mask
estimator is the external collaborator `maskEstimate`. -/
def yvvRun (use_masks sda_mask : Bool)
    (smooth : (ι → ℚ) → (ι → ℚ)) (maskEstimate : (ι → ℚ) → (ι → ℚ))
    (slices : List (SliceData π × (ι → Option π))) (hr : StackVol ι) :
    StackVol ι :=
  let ND := yvvAccumulate (slices.map (toRSlice use_masks sda_mask))
  let smoothN := smooth ND.1
  let smoothD := smooth (zeroGuard ND.2)
  finalizeVolume sda_mask maskEstimate (fun x => smoothN x / smoothD x) hr

/-- The whole Deriche reconstruction pass (lines 467-574), analogously. -/
def dericheRun (use_masks sda_mask : Bool)
    (smooth : (ι → ℚ) → (ι → ℚ)) (maskEstimate : (ι → ℚ) → (ι → ℚ))
    (slices : List (SliceData π × (ι → Option π))) (hr : StackVol ι) :
    StackVol ι :=
  let ND := dericheAccumulate (slices.map (toRSlice use_masks sda_mask))
  let smoothN := smooth ND.1
  let smoothD := smooth (zeroGuard ND.2)
  finalizeVolume sda_mask maskEstimate (fun x => smoothN x / smoothD x) hr

/-- Sigma handling of the constructor (lines 76-81): default isotropic array
np.ones(3) * sigma when no array is given, ValueError when the given array
does not have exactly 3 elements, otherwise the array is stored unchanged.
Small-integer interning in CPython makes the source comparison
(len(sigma_array) is not 3) behave as a plain inequality test here. -/
def initSigmaArray (sigma : ℚ) (sigma_array : Option (List ℚ)) :
    Except String (List ℚ) :=
  match sigma_array with
  | none => Except.ok [sigma, sigma, sigma]
  | some arr =>
      if arr.length ≠ 3 then
        Except.error ("Error: Sigma array must contain 3 elements")
      else
        Except.ok arr

/-- set_sigma_array (lines 111-115): ValueError unless the array has exactly
3 elements, otherwise stored unchanged. -/
def set_sigma_array (sigma_array : List ℚ) : Except String (List ℚ) :=
  if sigma_array.length ≠ 3 then
    Except.error ("Error: Sigma array must contain 3 elements")
  else
    Except.ok sigma_array

/-- set_approach (lines 126-131): ValueError unless the name is one of the
two supported variants, otherwise stored unchanged. -/
def set_approach (sda_approach : String) : Except String String :=
  if sda_approach ∉ ["Shepard-YVV", "Shepard-Deriche"] then
    Except.error
      ("Error: SDA approach can only be either Shepard-YVV or Shepard-Deriche")
  else
    Except.ok sda_approach

end SDA

section OutlierRejection

/-- A stack as the outlier rejector sees it: live slice numbers and the
numbers of previously deleted slices. -/
structure ORStack where
  slices : List ℕ
  deleted : List ℕ
deriving DecidableEq

/-- Whether a slice number lands in np.where(nda_sim < threshold)[0]
(outlier_rejector.py lines 76-85): its similarity entry exists and is below
the threshold. -/
def sliceRejected (nda_sim : List ℚ) (threshold : ℚ) (j : ℕ) : Bool :=
  match nda_sim[j]? with
  | some v => decide (v < threshold)
  | none => false

/-- Per-stack slice rejection (lines 87-89): every live slice whose number is
among the rejections is deleted, which moves it to the deleted list. -/
def rejectStackSlices (threshold : ℚ) (nda_sim : List ℚ) (st : ORStack) :
    ORStack :=
  { slices := st.slices.filter (fun j => ! sliceRejected nda_sim threshold j),
    deleted :=
      st.deleted ++ st.slices.filter (fun j => sliceRejected nda_sim threshold j) }

/-- OutlierRejector.run over the working list of stacks, each paired with its
similarity array (lines 74-89 and 142-144, 169-174): reject slices per stack,
collect the stacks whose live-slice count reached zero, and remove exactly
those from the working list. -/
def outlierRejectorRun (threshold : ℚ) (stackSims : List (ORStack × List ℚ)) :
    List ORStack :=
  (stackSims.map (fun p => rejectStackSlices threshold p.2 p.1)).filter
    (fun st => st.slices.length != 0)

end OutlierRejection

section Claims

variable {ι π : Type}

/-- A slice holding the raw value 0 at its only pixel, covering the single
voxel of the target grid. -/
def cSliceZero : RSlice (Fin 1) (Fin 1) :=
  { src := fun _ => 0, map := fun _ => some 0 }

/-- Claim C1 (counterexample): the two variants do not build the
pre-smoothing Accumulation Pair by the same rule.  yvvAccumulate implements
the +1-offset rule the claim describes; on a slice whose only pixel holds the
raw value 0, that rule counts the voxel (denominator 1) while the Deriche
accumulation loop, which applies no offset, does not (denominator 0). -/
theorem c1_counterexample :
    (dericheAccumulate [cSliceZero]).2 0 = 0 ∧
    (yvvAccumulate [cSliceZero]).2 0 = 1 ∧
    (dericheAccumulate [cSliceZero]).2 0 ≠ (yvvAccumulate [cSliceZero]).2 0 := by
  have hY : ndaYvv cSliceZero 0 = 1 := by
    simp [ndaYvv, resampleNN, cSliceZero]
  have hD : ndaDeriche cSliceZero 0 = 0 := by
    simp [ndaDeriche, resampleNN, cSliceZero]
  refine ⟨?_, ?_, ?_⟩ <;>
    simp [dericheAccumulate, dericheSliceUpdate, hD,
      yvvAccumulate, yvvSliceUpdate, hY]

lemma dericheSliceUpdate_eq_yvv_of_pos (s : RSlice ι π)
    (hs : ∀ p, 0 < s.src p) (ND : (ι → ℚ) × (ι → ℚ)) :
    dericheSliceUpdate s ND = yvvSliceUpdate s ND := by
  unfold dericheSliceUpdate yvvSliceUpdate
  refine Prod.ext ?_ ?_ <;> funext x <;> dsimp only <;>
    rcases hm : s.map x with _ | p
  · simp [ndaYvv, ndaDeriche, resampleNN, hm]
  · have h1 : 0 < s.src p := hs p
    have h2 : 0 < s.src p + 1 := by linarith
    simp [ndaYvv, ndaDeriche, resampleNN, hm, h1, h2]
  · simp [ndaYvv, ndaDeriche, resampleNN, hm]
  · have h1 : 0 < s.src p := hs p
    have h2 : 0 < s.src p + 1 := by linarith
    simp [ndaYvv, ndaDeriche, resampleNN, hm, h1, h2]

lemma deriche_foldl_eq_yvv_of_pos (l : List (RSlice ι π))
    (hl : ∀ s ∈ l, ∀ p, 0 < s.src p) :
    ∀ ND, l.foldl (fun ND s => dericheSliceUpdate s ND) ND =
      l.foldl (fun ND s => yvvSliceUpdate s ND) ND := by
  induction l with
  | nil => intro ND; rfl
  | cons a l ih =>
      intro ND
      simp only [List.foldl_cons]
      rw [dericheSliceUpdate_eq_yvv_of_pos a (hl a (List.mem_cons_self a l))]
      exact ih (fun s hs => hl s (List.mem_cons_of_mem a hs)) _

/-- Claim C1 (amended): only the YVV variant follows the +1-offset
accumulation rule; the Deriche variant resamples the raw values and adds them
without offset.  The two accumulation loops produce the same Accumulation
Pair whenever every selected source pixel value is strictly positive. -/
theorem c1_amended_accumulation_agreement (l : List (RSlice ι π))
    (hl : ∀ s ∈ l, ∀ p, 0 < s.src p) :
    dericheAccumulate l = yvvAccumulate l :=
  deriche_foldl_eq_yvv_of_pos l hl _

/-- A slice holding the raw value 1 at its only pixel. -/
def cSliceOne : RSlice (Fin 1) (Fin 1) :=
  { src := fun _ => 1, map := fun _ => some 0 }

/-- Witness for c1_amended_accumulation_agreement on a concrete all-positive
slice. -/
theorem c1_amended_witness :
    (∀ s ∈ [cSliceOne], ∀ p, 0 < s.src p) ∧
    dericheAccumulate [cSliceOne] = yvvAccumulate [cSliceOne] := by
  have hpos : ∀ s ∈ [cSliceOne], ∀ p, 0 < s.src p := by
    intro s hs p
    simp only [List.mem_singleton] at hs
    subst hs
    norm_num [cSliceOne]
  exact ⟨hpos, c1_amended_accumulation_agreement [cSliceOne] hpos⟩

lemma pairFold_perm (f g : RSlice ι π → ι → ℚ) {l₁ l₂ : List (RSlice ι π)}
    (h : l₁.Perm l₂) : pairFold f g l₁ = pairFold f g l₂ := by
  rw [pairFold_eq_sum, pairFold_eq_sum]
  refine Prod.ext ?_ ?_ <;> funext x
  · exact (h.map (fun s => f s x)).sum_eq
  · exact (h.map (fun s => g s x)).sum_eq

/-- Claim C5: the Accumulation Pair is invariant under any permutation of the
slice processing order, for both variants (exact arithmetic). -/
theorem c5_accumulation_commutes (l₁ l₂ : List (RSlice ι π))
    (h : l₁.Perm l₂) :
    yvvAccumulate l₁ = yvvAccumulate l₂ ∧
    dericheAccumulate l₁ = dericheAccumulate l₂ := by
  constructor
  · rw [yvvAccumulate_eq_pairFold, yvvAccumulate_eq_pairFold]
    exact pairFold_perm _ _ h
  · rw [dericheAccumulate_eq_pairFold, dericheAccumulate_eq_pairFold]
    exact pairFold_perm _ _ h

/-- First slice of the C5 witness pair: value 3 at the shared voxel. -/
def cSliceP1 : RSlice (Fin 1) (Fin 1) :=
  { src := fun _ => 3, map := fun _ => some 0 }

/-- Second slice of the C5 witness pair: value 5 at the shared voxel. -/
def cSliceP2 : RSlice (Fin 1) (Fin 1) :=
  { src := fun _ => 5, map := fun _ => some 0 }

/-- Witness for c5_accumulation_commutes on a concrete two-slice swap. -/
theorem c5_witness :
    ([cSliceP1, cSliceP2].Perm [cSliceP2, cSliceP1]) ∧
    yvvAccumulate [cSliceP1, cSliceP2] = yvvAccumulate [cSliceP2, cSliceP1] ∧
    dericheAccumulate [cSliceP1, cSliceP2] =
      dericheAccumulate [cSliceP2, cSliceP1] :=
  ⟨List.Perm.swap cSliceP2 cSliceP1 [],
   (c5_accumulation_commutes [cSliceP1, cSliceP2] [cSliceP2, cSliceP1]
      (List.Perm.swap cSliceP2 cSliceP1 [])).1,
   (c5_accumulation_commutes [cSliceP1, cSliceP2] [cSliceP2, cSliceP1]
      (List.Perm.swap cSliceP2 cSliceP1 [])).2⟩

lemma yvv_denom_eq_count (l : List (RSlice ι π)) (x : ι) :
    (yvvAccumulate l).2 x =
      l.countP (fun s => decide (0 < ndaYvv s x)) := by
  rw [yvvAccumulate_eq_pairFold, pairFold_eq_sum]
  simpa [yvvContribD] using
    sum_indicator_eq_countP (fun s x => 0 < ndaYvv s x) x l

lemma deriche_denom_eq_count (l : List (RSlice ι π)) (x : ι) :
    (dericheAccumulate l).2 x =
      l.countP (fun s => decide (0 < ndaDeriche s x)) := by
  rw [dericheAccumulate_eq_pairFold, pairFold_eq_sum]
  simpa [dericheContribD] using
    sum_indicator_eq_countP (fun s x => 0 < ndaDeriche s x) x l

lemma uncertainty_denom_eq_count (l : List (RSlice ι π)) (x : ι) :
    uncertaintyAccumulateD l x =
      l.countP (fun s => decide (0 < ndaYvv s x)) := by
  rw [uncertaintyAccumulateD_eq]
  simpa [yvvContribD] using
    sum_indicator_eq_countP (fun s x => 0 < ndaYvv s x) x l

lemma one_le_zeroGuard_of_natCast (D : ι → ℚ) (x : ι) (n : ℕ)
    (h : D x = (n : ℚ)) : 1 ≤ zeroGuard D x := by
  unfold zeroGuard
  split
  · exact le_refl 1
  · rename_i hne
    rw [h] at hne ⊢
    have hn : n ≠ 0 := by
      intro h0
      exact hne (by simp [h0])
    exact_mod_cast Nat.one_le_iff_ne_zero.mpr hn

/-- Claim C4: after accumulation and the zero guard, every denominator voxel
is at least 1, and a voxel whose accumulated count is exactly zero is set to
exactly one.  This holds in the YVV run, the Deriche run, and the
uncertainty computation. -/
theorem c4_denominator_at_least_one (l : List (RSlice ι π)) (x : ι) :
    (1 ≤ zeroGuard (yvvAccumulate l).2 x ∧
     1 ≤ zeroGuard (dericheAccumulate l).2 x ∧
     1 ≤ zeroGuard (uncertaintyAccumulateD l) x) ∧
    (((yvvAccumulate l).2 x = 0 → zeroGuard (yvvAccumulate l).2 x = 1) ∧
     ((dericheAccumulate l).2 x = 0 → zeroGuard (dericheAccumulate l).2 x = 1) ∧
     (uncertaintyAccumulateD l x = 0 → zeroGuard (uncertaintyAccumulateD l) x = 1)) := by
  refine ⟨⟨?_, ?_, ?_⟩, ?_, ?_, ?_⟩
  · exact one_le_zeroGuard_of_natCast _ x _ (yvv_denom_eq_count l x)
  · exact one_le_zeroGuard_of_natCast _ x _ (deriche_denom_eq_count l x)
  · exact one_le_zeroGuard_of_natCast _ x _ (uncertainty_denom_eq_count l x)
  · intro h0; simp [zeroGuard, h0]
  · intro h0; simp [zeroGuard, h0]
  · intro h0; simp [zeroGuard, h0]

/-- Witness for c4_denominator_at_least_one on the empty slice list, whose
accumulated counts are zero everywhere. -/
theorem c4_witness :
    (yvvAccumulate ([] : List (RSlice (Fin 1) (Fin 1)))).2 0 = 0 ∧
    zeroGuard (yvvAccumulate ([] : List (RSlice (Fin 1) (Fin 1)))).2 0 = 1 ∧
    1 ≤ zeroGuard (dericheAccumulate ([] : List (RSlice (Fin 1) (Fin 1)))).2 0 :=
  ⟨rfl,
   (c4_denominator_at_least_one ([] : List (RSlice (Fin 1) (Fin 1))) 0).2.1 rfl,
   (c4_denominator_at_least_one ([] : List (RSlice (Fin 1) (Fin 1))) 0).1.2.1⟩

/-- Anisotropic test sigma array: axis i gets standard deviation i + 1. -/
def sigmaTest : Fin 3 → ℚ :=
  fun i => (i.val : ℚ) + 1

/-- Claim C2 (code bug evaluation): with the anisotropic sigma array
(1, 2, 3), the YVV variant hands the filter all three per-axis sigmas, but
the Deriche variant hands SimpleITK only the scalar sigma_array[1] = 2, so
every axis of the Deriche smoothing uses sigma 2 instead of its own entry. -/
theorem c2_deriche_sigma_eval :
    yvvSmoothingSigmas sigmaTest = sigmaTest ∧
    dericheSmoothingSigmas sigmaTest 0 = 2 ∧
    dericheSmoothingSigmas sigmaTest 2 = 2 ∧
    sigmaTest 0 = 1 ∧
    sigmaTest 2 = 3 := by
  refine ⟨rfl, ?_, ?_, ?_, ?_⟩ <;>
    norm_num [dericheSmoothingSigmas, sigmaTest]

/-- Claim C3 (counterexample): with 2 stacks, a smoothed denominator value of
0 at a voxel inside the mask gives normalized uncertainty 3, outside the
claimed range [1, 2]. -/
theorem c3_counterexample :
    normalizedUncertainty 2 0 1 = 3 ∧ ¬ normalizedUncertainty 2 0 1 ≤ 2 := by
  constructor
  · norm_num [normalizedUncertainty, npClip, npUInt8]
    decide
  · norm_num [normalizedUncertainty, npClip, npUInt8]
    decide

lemma npUInt8_eq_toNat_floor (x : ℚ) (hx : x ≤ 255) :
    npUInt8 x = (⌊x⌋).toNat := by
  unfold npUInt8
  refine Nat.mod_eq_of_lt ?_
  have h1 : ⌊x⌋ ≤ 255 := by
    have := Int.floor_le_floor hx
    simpa using this
  have h2 : (⌊x⌋).toNat ≤ 255 := by omega
  omega

lemma npClip_nonneg (x hi : ℚ) (hhi : 0 ≤ hi) : 0 ≤ npClip x 0 hi :=
  le_min (le_max_right x 0) hhi

lemma npClip_le (x hi : ℚ) : npClip x 0 hi ≤ hi :=
  min_le_right _ _

lemma npClip_mono (x y hi : ℚ) (h : x ≤ y) : npClip x 0 hi ≤ npClip y 0 hi :=
  min_le_min (max_le_max h le_rfl) le_rfl

/-- Claim C3 (amended): for a stack count N with 1 ≤ N ≤ 254, the normalized
uncertainty equals (N - clip(d, 0, N) + 1) * m cast to uint8, is 0 outside
the mask, is a non-increasing function of the smoothed denominator d, and
lies in [1, N] inside the mask whenever d ≥ 1 (the pre-smoothing zero guard
gives d ≥ 1, but the claim fails for d < 1, which smoothing does not rule
out). -/
theorem c3_normalized_uncertainty (N : ℕ) (d dd m : ℚ)
    (hN1 : 1 ≤ N) (hN : N ≤ 254) :
    (m = 0 → normalizedUncertainty N d m = 0) ∧
    (d ≤ dd → normalizedUncertainty N dd 1 ≤ normalizedUncertainty N d 1) ∧
    (1 ≤ d →
      1 ≤ normalizedUncertainty N d 1 ∧ normalizedUncertainty N d 1 ≤ N) := by
  have hNQ : (N : ℚ) ≤ 254 := by exact_mod_cast hN
  have hNQ1 : (1 : ℚ) ≤ (N : ℚ) := by exact_mod_cast hN1
  have hN0 : (0 : ℚ) ≤ (N : ℚ) := by linarith
  refine ⟨?_, ?_, ?_⟩
  · intro hm
    subst hm
    simp [normalizedUncertainty, npUInt8]
  · intro hdd
    have hclip : npClip d 0 (N : ℚ) ≤ npClip dd 0 (N : ℚ) :=
      npClip_mono d dd _ hdd
    have hvdd : ((N : ℚ) - npClip dd 0 (N : ℚ) + 1) * 1 ≤
        ((N : ℚ) - npClip d 0 (N : ℚ) + 1) * 1 := by
      have := npClip_nonneg d (N : ℚ) hN0
      nlinarith
    have hvd : ((N : ℚ) - npClip d 0 (N : ℚ) + 1) * 1 ≤ 255 := by
      have := npClip_nonneg d (N : ℚ) hN0
      nlinarith
    unfold normalizedUncertainty
    rw [npUInt8_eq_toNat_floor _ hvd,
      npUInt8_eq_toNat_floor _ (le_trans hvdd hvd)]
    exact Int.toNat_le_toNat (Int.floor_le_floor hvdd)
  · intro hd
    have h0d : (0 : ℚ) ≤ d := by linarith
    have hmax : max d 0 = d := max_eq_left h0d
    have hc1 : (1 : ℚ) ≤ npClip d 0 (N : ℚ) := by
      unfold npClip
      rw [hmax]
      exact le_min hd hNQ1
    have hcN : npClip d 0 (N : ℚ) ≤ (N : ℚ) := npClip_le _ _
    have hv1 : (1 : ℚ) ≤ ((N : ℚ) - npClip d 0 (N : ℚ) + 1) * 1 := by
      nlinarith
    have hvN : ((N : ℚ) - npClip d 0 (N : ℚ) + 1) * 1 ≤ (N : ℚ) := by
      nlinarith
    have hv255 : ((N : ℚ) - npClip d 0 (N : ℚ) + 1) * 1 ≤ 255 := by
      linarith
    unfold normalizedUncertainty
    rw [npUInt8_eq_toNat_floor _ hv255]
    constructor
    · have : (1 : ℤ) ≤ ⌊((N : ℚ) - npClip d 0 (N : ℚ) + 1) * 1⌋ :=
        Int.le_floor.mpr (by exact_mod_cast hv1)
      omega
    · have hfl : ⌊((N : ℚ) - npClip d 0 (N : ℚ) + 1) * 1⌋ ≤ (N : ℤ) := by
        have := Int.floor_le_floor hvN
        simpa using this
      omega

/-- Witness for c3_normalized_uncertainty at N = 2, d = 1, dd = 2, m = 0. -/
theorem c3_witness :
    (1 ≤ 2 ∧ 2 ≤ 254 ∧ (1 : ℚ) ≤ 1 ∧ (1 : ℚ) ≤ (2 : ℚ) ∧ (0 : ℚ) = 0) ∧
    normalizedUncertainty 2 0 0 = 0 ∧
    normalizedUncertainty 2 2 1 ≤ normalizedUncertainty 2 1 1 ∧
    (1 ≤ normalizedUncertainty 2 1 1 ∧ normalizedUncertainty 2 1 1 ≤ 2) :=
  ⟨by norm_num,
   (c3_normalized_uncertainty 2 0 2 0 (by norm_num) (by norm_num)).1 rfl,
   (c3_normalized_uncertainty 2 1 2 0 (by norm_num) (by norm_num)).2.1
     (by norm_num),
   (c3_normalized_uncertainty 2 1 2 0 (by norm_num) (by norm_num)).2.2
     (by norm_num)⟩

/-- Claim C6: with an empty list of stacks, the pre-smoothing numerator is
identically 0 and the guarded denominator identically 1, and the final ratio
volume is identically 0 (the Gaussian filter maps the zero volume to the zero
volume, being a convolution).  Covers both variants. -/
theorem c6_empty_reconstruction (um : Bool)
    (smooth maskEstimate : (ι → ℚ) → (ι → ℚ)) (hr : StackVol ι)
    (hsmooth : smooth (fun _ => 0) = fun _ => 0) :
    (yvvAccumulate ([] : List (RSlice ι π))).1 = (fun _ => 0) ∧
    zeroGuard (yvvAccumulate ([] : List (RSlice ι π))).2 = (fun _ => 1) ∧
    (yvvRun um false smooth maskEstimate
      ([] : List (SliceData π × (ι → Option π))) hr).sitk = (fun _ => 0) ∧
    (dericheRun um false smooth maskEstimate
      ([] : List (SliceData π × (ι → Option π))) hr).sitk = (fun _ => 0) := by
  refine ⟨rfl, ?_, ?_, ?_⟩
  · funext x
    simp [zeroGuard, yvvAccumulate]
  · funext x
    simp [yvvRun, yvvAccumulate, finalizeVolume, hsmooth]
  · funext x
    simp [dericheRun, dericheAccumulate, finalizeVolume, hsmooth]

/-- A concrete HR target volume on a one-voxel grid. -/
def cHRVol : StackVol (Fin 1) :=
  { sitk := fun _ => 5, sitk_mask := fun _ => 1 }

/-- Witness for c6_empty_reconstruction with the identity filter. -/
theorem c6_witness :
    ((fun v : Fin 1 → ℚ => v) (fun _ => 0) = fun _ => 0) ∧
    (yvvRun false false (fun v => v) (fun v => v)
      ([] : List (SliceData (Fin 1) × (Fin 1 → Option (Fin 1)))) cHRVol).sitk =
      (fun _ => 0) :=
  ⟨rfl,
   (c6_empty_reconstruction false (fun v => v) (fun v => v) cHRVol rfl).2.2.1⟩

/-- Claim C7: a sigma array whose length is not 3 is rejected with a
ValueError by both the constructor and set_sigma_array, an approach name
outside the two supported variants is rejected by set_approach, and valid
values are stored unchanged with no fallback.  The validators run before any
accumulation work. -/
theorem c7_config_validation (arr : List ℚ) (sigma : ℚ) (name : String) :
    (arr.length ≠ 3 →
      set_sigma_array arr =
        Except.error ("Error: Sigma array must contain 3 elements") ∧
      initSigmaArray sigma (some arr) =
        Except.error ("Error: Sigma array must contain 3 elements")) ∧
    (arr.length = 3 →
      set_sigma_array arr = Except.ok arr ∧
      initSigmaArray sigma (some arr) = Except.ok arr) ∧
    (name ∉ ["Shepard-YVV", "Shepard-Deriche"] →
      set_approach name =
        Except.error
          ("Error: SDA approach can only be either Shepard-YVV or Shepard-Deriche")) ∧
    (name ∈ ["Shepard-YVV", "Shepard-Deriche"] →
      set_approach name = Except.ok name) := by
  refine ⟨?_, ?_, ?_, ?_⟩
  · intro h
    constructor <;> simp [set_sigma_array, initSigmaArray, h]
  · intro h
    constructor <;> simp [set_sigma_array, initSigmaArray, h]
  · intro h
    simp [set_approach, h]
  · intro h
    simp [set_approach, h]

/-- Witness for c7_config_validation: a length-2 sigma array is rejected, a
length-3 one and a valid approach name are stored unchanged. -/
theorem c7_witness :
    set_sigma_array [1, 2] =
      Except.error ("Error: Sigma array must contain 3 elements") ∧
    set_sigma_array [1, 2, 3] = Except.ok [1, 2, 3] ∧
    set_approach ("Shepard-YVV") = Except.ok ("Shepard-YVV") :=
  ⟨((c7_config_validation [1, 2] 0 ("Shepard-YVV")).1 (by norm_num)).1,
   ((c7_config_validation [1, 2, 3] 0 ("Shepard-YVV")).2.1 (by norm_num)).1,
   (c7_config_validation [1, 2, 3] 0 ("Shepard-YVV")).2.2.2 (by simp)⟩

/-- Claim C8: with sda_mask the reconstruction replaces only the mask field
of the HR volume with the mask estimator output, leaving the intensity field
unchanged; without sda_mask it replaces only the intensity field with the
ratio volume, leaving the mask field unchanged.  Holds for both variants. -/
theorem c8_field_replacement (um : Bool)
    (smooth maskEstimate : (ι → ℚ) → (ι → ℚ)) (update : ι → ℚ)
    (slices : List (SliceData π × (ι → Option π))) (hr : StackVol ι) :
    ((finalizeVolume true maskEstimate update hr).sitk_mask =
        maskEstimate update ∧
     (finalizeVolume true maskEstimate update hr).sitk = hr.sitk) ∧
    ((finalizeVolume false maskEstimate update hr).sitk = update ∧
     (finalizeVolume false maskEstimate update hr).sitk_mask = hr.sitk_mask) ∧
    (yvvRun um true smooth maskEstimate slices hr).sitk = hr.sitk ∧
    (dericheRun um true smooth maskEstimate slices hr).sitk = hr.sitk ∧
    (yvvRun um false smooth maskEstimate slices hr).sitk_mask = hr.sitk_mask ∧
    (dericheRun um false smooth maskEstimate slices hr).sitk_mask =
      hr.sitk_mask := by
  refine ⟨⟨rfl, rfl⟩, ⟨rfl, rfl⟩, ?_, ?_, ?_, ?_⟩ <;>
    simp [yvvRun, dericheRun, finalizeVolume]

/-- Claim C9: with sda_mask set, the slice-source selection picks the mask
array whether or not use_masks is set, and the whole reconstruction output is
the same for use_masks = true and use_masks = false, under either variant. -/
theorem c9_use_masks_irrelevant_under_sda_mask
    (smooth maskEstimate : (ι → ℚ) → (ι → ℚ))
    (slices : List (SliceData π × (ι → Option π))) (hr : StackVol ι)
    (s : SliceData π) :
    getSliceSource true true s = s.mask ∧
    getSliceSource false true s = s.mask ∧
    yvvRun true true smooth maskEstimate slices hr =
      yvvRun false true smooth maskEstimate slices hr ∧
    dericheRun true true smooth maskEstimate slices hr =
      dericheRun false true smooth maskEstimate slices hr := by
  refine ⟨rfl, rfl, ?_, ?_⟩ <;> rfl

/-- Claim C10: after the outlier rejector runs, every stack left in the
working list has at least one live slice; a processed stack is kept exactly
when its live-slice count did not reach zero. -/
theorem c10_dead_stacks_removed (threshold : ℚ)
    (l : List (ORStack × List ℚ)) :
    (∀ st ∈ outlierRejectorRun threshold l, 1 ≤ st.slices.length) ∧
    (∀ st ∈ l.map (fun p => rejectStackSlices threshold p.2 p.1),
      1 ≤ st.slices.length → st ∈ outlierRejectorRun threshold l) ∧
    (∀ st ∈ l.map (fun p => rejectStackSlices threshold p.2 p.1),
      st.slices.length = 0 → st ∉ outlierRejectorRun threshold l) := by
  refine ⟨?_, ?_, ?_⟩
  · intro st hst
    have h := (List.mem_filter.mp hst).2
    simp only [bne_iff_ne, ne_eq] at h
    omega
  · intro st hst hlen
    refine List.mem_filter.mpr ⟨hst, ?_⟩
    simp only [bne_iff_ne, ne_eq]
    omega
  · intro st _ hlen hmem
    have h := (List.mem_filter.mp hmem).2
    simp only [bne_iff_ne, ne_eq] at h
    omega

/-- Concrete input for the C10 witness: one stack whose only slice survives
(similarity 1 at threshold 0) and one whose only slice is rejected
(similarity -1). -/
def c10Input : List (ORStack × List ℚ) :=
  [(ORStack.mk [0] [], [1]), (ORStack.mk [0] [], [-1])]

/-- Witness for c10_dead_stacks_removed on c10Input: the surviving stack
keeps its slice and stays, the emptied stack is removed. -/
theorem c10_witness :
    ORStack.mk [0] [] ∈ outlierRejectorRun 0 c10Input ∧
    1 ≤ (ORStack.mk [0] []).slices.length ∧
    ORStack.mk [] [0] ∉ outlierRejectorRun 0 c10Input :=
  ⟨(c10_dead_stacks_removed 0 c10Input).2.1 (ORStack.mk [0] [])
      (by norm_num [c10Input, rejectStackSlices, sliceRejected])
      (by norm_num),
   (c10_dead_stacks_removed 0 c10Input).1 (ORStack.mk [0] [])
      ((c10_dead_stacks_removed 0 c10Input).2.1 (ORStack.mk [0] [])
        (by norm_num [c10Input, rejectStackSlices, sliceRejected])
        (by norm_num)),
   (c10_dead_stacks_removed 0 c10Input).2.2 (ORStack.mk [] [0])
      (by norm_num [c10Input, rejectStackSlices, sliceRejected])
      (by norm_num)⟩

end Claims
